import Mathlib

/-!
Verification development for the BlogSystem101 WordPress publish pipeline
(`POST /api/blogs/:id/publish` and `PATCH /api/blogs/:id/images/:imageIndex`).

All string-rewriting steps of the route handlers (JavaScript regex replaces)
are embedded as executable functions on `List Char`.  Scanning functions that
consume more than one character per step take an explicit fuel argument equal
to the input length, so every definition is structurally recursive and
kernel-evaluable.
-/

namespace BlogSys

/-! ## Basic character/string utilities (JS semantics) -/

/-- JavaScript whitespace class `\s`, restricted to the ASCII range. -/
def jsWs (c : Char) : Bool :=
  c = ' ' || c = '\t' || c = '\n' || c = '\r' || c = Char.ofNat 11 || c = Char.ofNat 12

/-- The backtick character (written by code to avoid the literal). -/
def btick : Char := Char.ofNat 96

/-- `startsWithL pre l` : `l` begins with `pre`. -/
def startsWithL : List Char → List Char → Bool
  | [], _ => true
  | _ :: _, [] => false
  | p :: ps, c :: cs => (p == c) && startsWithL ps cs

/-- `includesL needle hay` : JS `hay.includes(needle)`. -/
def includesL (needle : List Char) : List Char → Bool
  | [] => startsWithL needle []
  | c :: cs => startsWithL needle (c :: cs) || includesL needle cs

/-- JS `String.prototype.trim` (both ends, `\s`). -/
def trimL (l : List Char) : List Char :=
  ((l.dropWhile jsWs).reverse.dropWhile jsWs).reverse

/-- JS `str.split(sep)` for a single-character separator. -/
def splitChar (sep : Char) : List Char → List (List Char)
  | [] => [[]]
  | c :: cs =>
    match splitChar sep cs with
    | [] => if c = sep then [[], []] else [[c]]
    | h :: t => if c = sep then [] :: h :: t else (c :: h) :: t

/-- JS `str.split(regex)` where the regex matches maximal runs of characters
satisfying `p` (used for the sentence split on `[.!?]+`). -/
def splitRuns (p : Char → Bool) : List Char → List (List Char)
  | [] => [[]]
  | c :: cs =>
    if p c then
      match cs with
      | c2 :: _ =>
        if p c2 then splitRuns p cs else [] :: splitRuns p cs
      | [] => [] :: splitRuns p cs
    else
      match splitRuns p cs with
      | [] => [[c]]
      | h :: t => (c :: h) :: t

/-- JS `str.split("\n\n")` (leftmost, non-overlapping two-character separator). -/
def splitNlNl : List Char → List (List Char)
  | [] => [[]]
  | '\n' :: '\n' :: cs => [] :: splitNlNl cs
  | c :: cs =>
    match splitNlNl cs with
    | [] => [[c]]
    | h :: t => (c :: h) :: t

/-- JS `Array.prototype.join(sep)`. -/
def joinSep (sep : List Char) : List (List Char) → List Char
  | [] => []
  | [x] => x
  | x :: y :: t => x ++ sep ++ joinSep sep (y :: t)

/-- Lower-case a character list (ASCII, as used by `toLowerCase` on the
repository's inputs). -/
def lowerL (l : List Char) : List Char := l.map Char.toLower

/-- Case-insensitive `startsWithL` (regex `i` flag). -/
def ciStartsWith : List Char → List Char → Bool
  | [], _ => true
  | _ :: _, [] => false
  | p :: ps, c :: cs => (Char.toLower p == Char.toLower c) && ciStartsWith ps cs

/-! ## The markdown image reference scanner

JS regex `/!\[([^\]]*)\]\(([^)]+)\)/` : `![alt](url)` with `alt` free of `]`
and `url` non-empty and free of `)`.  Because the two character classes
exclude the closing delimiters, JS matching is deterministic:
at a position the match is `!`, `[`, the run up to the first `]`, then `](`,
then a non-empty run up to the first `)`, then `)`. -/

/-- Try to match one image reference at the head of the list.
Returns `(alt, url, rest)`. -/
def tryImage (cs : List Char) : Option (List Char × List Char × List Char) :=
  match cs with
  | '!' :: '[' :: r =>
    match r.dropWhile (· != ']') with
    | ']' :: '(' :: r2 =>
      match r2.dropWhile (· != ')') with
      | ')' :: r3 =>
        if r2.takeWhile (· != ')') = [] then none
        else some (r.takeWhile (· != ']'), r2.takeWhile (· != ')'), r3)
      | _ => none
    | _ => none
  | _ => none

/-- Renders an image reference back to text: `![alt](url)`. -/
def imgRender (alt url : List Char) : List Char :=
  ['!', '['] ++ alt ++ [']', '('] ++ url ++ [')']

/-- A parsed segment of markdown content: a literal character or one image
reference. -/
inductive Seg where
  | lit : Char → Seg
  | img : List Char → List Char → Seg
deriving DecidableEq, Repr

/-- Parse content into segments by the same left-to-right scan the JS global
regex performs (fueled; fuel = length suffices). -/
def parseSegsG : ℕ → List Char → List Seg
  | 0, _ => []
  | _ + 1, [] => []
  | fuel + 1, c :: cs =>
    match tryImage (c :: cs) with
    | some (a, u, r) => Seg.img a u :: parseSegsG fuel r
    | none => Seg.lit c :: parseSegsG fuel cs

def parseSegs (l : List Char) : List Seg := parseSegsG l.length l

/-- Render a segment list back to text. -/
def renderSegs : List Seg → List Char
  | [] => []
  | Seg.lit c :: t => c :: renderSegs t
  | Seg.img a u :: t => imgRender a u ++ renderSegs t

/-- The literal (non-image) characters of a segment list, in order. -/
def litChars : List Seg → List Char
  | [] => []
  | Seg.lit c :: t => c :: litChars t
  | Seg.img _ _ :: t => litChars t

def isImgSeg : Seg → Bool
  | Seg.img _ _ => true
  | Seg.lit _ => false

/-- Number of image references in content (number of matches of the image
regex). -/
def countImagesL (l : List Char) : ℕ := (parseSegs l).countP isImgSeg

def countImagesS (s : String) : ℕ := countImagesL s.data

/-- JS `content.match(imageRegex)` (non-global first match): first image
reference, as `(alt, url)`. -/
def firstImage : List Char → Option (List Char × List Char)
  | [] => none
  | c :: cs =>
    match tryImage (c :: cs) with
    | some (a, u, _) => some (a, u)
    | none => firstImage cs

/-! ## Generic single-pass global replace

`replScan f l` mirrors JS `l.replace(pattern, repl)` with the `g` flag for a
pattern whose match at a position is deterministic: `f` tries the pattern at
the head of its argument, returning the replacement text and the remainder
after the match. -/

def replScanG (f : List Char → Option (List Char × List Char)) :
    ℕ → List Char → List Char
  | 0, l => l
  | _ + 1, [] => []
  | fuel + 1, c :: cs =>
    match f (c :: cs) with
    | some (rep, rest) => rep ++ replScanG f fuel rest
    | none => c :: replScanG f fuel cs

def replScan (f : List Char → Option (List Char × List Char)) (l : List Char) :
    List Char :=
  replScanG f l.length l

/-- A matcher is shrinking when a match always consumes at least one
character. -/
def Shrink (f : List Char → Option (List Char × List Char)) : Prop :=
  ∀ cs p, f cs = some p → p.2.length < cs.length

/-! ## Matchers for the individual regex replaces of the publish handler -/

/-- `/!\[([^\]]*)\]\(([^)]+)\)/g` replaced by the empty string. -/
def imgDel (cs : List Char) : Option (List Char × List Char) :=
  (tryImage cs).map fun x => ([], x.2.2)

/-- `/\*Photo by[^*]*\*/g` replaced by the empty string. -/
def creditAMatch (cs : List Char) : Option (List Char × List Char) :=
  if startsWithL "*Photo by".data cs then
    match (cs.drop 9).dropWhile (· != '*') with
    | '*' :: r2 => some ([], r2)
    | _ => none
  else none

/-- `/\*[^*]*W[^*]*\*/g` (for `W` = `Unsplash` or `Photo`) replaced by the
empty string: a starred run containing the word. -/
def creditMidMatch (w : List Char) (cs : List Char) : Option (List Char × List Char) :=
  match cs with
  | '*' :: r =>
    match r.dropWhile (· != '*') with
    | '*' :: r2 => if includesL w (r.takeWhile (· != '*')) then some ([], r2) else none
    | _ => none
  | _ => none

/-- Length of the scheme `https?:\/\/` at the head, case-insensitively
(`i` flag), if present. -/
def ciScheme (cs : List Char) : Option ℕ :=
  if ciStartsWith "https://".data cs then some 8
  else if ciStartsWith "http://".data cs then some 7
  else none

/-- `/https?:\/\/[^\s]*unsplash[^\s]*/gi` replaced by the empty string.
The two greedy `[^\s]*` parts force the match to cover the entire non-space
run after the scheme, provided that run contains `unsplash` (any case). -/
def unsplashUrlMatch (cs : List Char) : Option (List Char × List Char) :=
  match ciScheme cs with
  | some n =>
    let r := cs.drop n
    if includesL "unsplash".data (lowerL (r.takeWhile (fun c => !jsWs c))) then
      some ([], r.dropWhile (fun c => !jsWs c))
    else none
  | none => none

/-- `/https?:\/\/images\.[^\s]*/gi` replaced by the empty string. -/
def imagesUrlMatch (cs : List Char) : Option (List Char × List Char) :=
  match ciScheme cs with
  | some n =>
    let r := cs.drop n
    if ciStartsWith "images.".data r then
      some ([], (r.drop 7).dropWhile (fun c => !jsWs c))
    else none
  | none => none

/-- The part of `w` after its last newline. -/
def afterLastNl (w : List Char) : List Char :=
  (w.reverse.takeWhile (· != '\n')).reverse

/-- `/\n\s*\n/g` replaced by `"\n"`.  Greedy `\s*` with backtracking makes the
match run from the first newline through the last newline of the following
whitespace run. -/
def blankMatch (cs : List Char) : Option (List Char × List Char) :=
  match cs with
  | '\n' :: r =>
    let w := r.takeWhile jsWs
    if '\n' ∈ w then some (['\n'], afterLastNl w ++ r.dropWhile jsWs)
    else none
  | _ => none

/-- `/\s+/g` replaced by a single space. -/
def wsRunMatch (cs : List Char) : Option (List Char × List Char) :=
  match cs with
  | c :: r => if jsWs c then some ([' '], r.dropWhile jsWs) else none
  | [] => none

/-- `/\[([^\]]+)\]\(([^)]+)\)/` : a markdown link `[text](url)` with non-empty
text and url.  Returns `(text, url, rest)`. -/
def tryLink (cs : List Char) : Option (List Char × List Char × List Char) :=
  match cs with
  | '[' :: r =>
    match r.dropWhile (· != ']') with
    | ']' :: '(' :: r2 =>
      match r2.dropWhile (· != ')') with
      | ')' :: r3 =>
        if r.takeWhile (· != ']') = [] ∨ r2.takeWhile (· != ')') = [] then none
        else some (r.takeWhile (· != ']'), r2.takeWhile (· != ')'), r3)
      | _ => none
    | _ => none
  | _ => none

/-- Link replace of the excerpt path: `$1` (keep the text only). -/
def linkKeepMatch (cs : List Char) : Option (List Char × List Char) :=
  (tryLink cs).map fun x => (x.1, x.2.2)

/-- The anchor tag produced by the HTML path for a link. -/
def anchorFor (txt url : List Char) : List Char :=
  "<a href=\"".data ++ url ++ "\" target=\"_blank\" rel=\"noopener noreferrer\">".data
    ++ txt ++ "</a>".data

/-- Link replace of the HTML path:
`<a href="$2" target="_blank" rel="noopener noreferrer">$1</a>`. -/
def linkAnchorMatch (cs : List Char) : Option (List Char × List Char) :=
  (tryLink cs).map fun x => (anchorFor x.1 x.2.1, x.2.2)

/-- `/\*\*([^*]+)\*\*/g` replaced by `<strong>$1</strong>`. -/
def boldMatch (cs : List Char) : Option (List Char × List Char) :=
  match cs with
  | '*' :: '*' :: r =>
    match r.dropWhile (· != '*') with
    | '*' :: '*' :: r2 =>
      if r.takeWhile (· != '*') = [] then none
      else some ("<strong>".data ++ r.takeWhile (· != '*') ++ "</strong>".data, r2)
    | _ => none
  | _ => none

/-- `/\*([^*]+)\*/g` replaced by `<em>$1</em>`. -/
def italicMatch (cs : List Char) : Option (List Char × List Char) :=
  match cs with
  | '*' :: r =>
    match r.dropWhile (· != '*') with
    | '*' :: r2 =>
      if r.takeWhile (· != '*') = [] then none
      else some ("<em>".data ++ r.takeWhile (· != '*') ++ "</em>".data, r2)
    | _ => none
  | _ => none

/-- Remove all markdown image references (single global pass, as the JS
`replace(..., '')` does). -/
def removeImagesL (l : List Char) : List Char := replScan imgDel l

/-! ## Stateful scanners (patterns sensitive to line starts / string start) -/

/-- Try `^#{1,6}\s+` at a line start: 1–6 hashes followed by at least one
whitespace character (`\s` may cross line breaks).  Returns the remainder and
whether the last consumed whitespace character was a newline (which determines
whether the next position is again a line start). -/
def hashMatch (cs : List Char) : Option (List Char × Bool) :=
  let hs := cs.takeWhile (· == '#')
  let r := cs.dropWhile (· == '#')
  if 1 ≤ hs.length ∧ hs.length ≤ 6 then
    let w := r.takeWhile jsWs
    if w = [] then none
    else some (r.dropWhile jsWs, w.getLast? == some '\n')
  else none

/-- `/^#{1,6}\s+/gm` replaced by the empty string (excerpt path). -/
def stripHashesG : ℕ → Bool → List Char → List Char
  | 0, _, l => l
  | _ + 1, _, [] => []
  | fuel + 1, atStart, c :: cs =>
    if atStart then
      match hashMatch (c :: cs) with
      | some (rest, nl) => stripHashesG fuel nl rest
      | none => c :: stripHashesG fuel (c == '\n') cs
    else c :: stripHashesG fuel (c == '\n') cs

def stripHashes (l : List Char) : List Char := stripHashesG l.length true l

/-- Characters allowed in the bare-URL body `[^\s<>"]`. -/
def urlBodyChar (c : Char) : Bool :=
  !jsWs c && c != '<' && c != '>' && c != '"'

/-- Try `https?:\/\/[^\s<>"]+` (case-sensitive) at the head, subject to the
negative lookahead `(?![^<]*<\/a>)`.  Returns `(wholeUrl, rest)`.
Backtracking the greedy `+` cannot change the lookahead outcome (dropped body
characters are never `<`), so the greedy match with a single lookahead test is
faithful. -/
def tryUrl (cs : List Char) : Option (List Char × List Char) :=
  match (if startsWithL "https://".data cs then some 8
         else if startsWithL "http://".data cs then some 7
         else none : Option ℕ) with
  | some n =>
    let r := cs.drop n
    let body := r.takeWhile urlBodyChar
    let rest := r.dropWhile urlBodyChar
    if body = [] then none
    else if startsWithL "</a>".data (rest.dropWhile (· != '<')) then none
    else some (cs.take n ++ body, rest)
  | none => none

/-- The anchor produced for a bare URL: `$1<a href="$2" ...>$2</a>` without
the leading `$1` character (handled by the caller). -/
def urlAnchor (url : List Char) : List Char := anchorFor url url

/-- `/(^|[^"'>])(https?:\/\/[^\s<>"]+)(?![^<]*<\/a>)/g` replaced by
`$1<a href="$2" target="_blank" rel="noopener noreferrer">$2</a>`.
The `^` alternative only applies at the very start of the string. -/
def bareUrlG : ℕ → Bool → List Char → List Char
  | 0, _, l => l
  | _ + 1, _, [] => []
  | fuel + 1, atStart, c :: cs =>
    match (if atStart then tryUrl (c :: cs) else none) with
    | some (url, rest) => urlAnchor url ++ bareUrlG fuel false rest
    | none =>
      if c ≠ '"' ∧ c ≠ '\'' ∧ c ≠ '>' then
        match tryUrl cs with
        | some (url, rest) => c :: (urlAnchor url ++ bareUrlG fuel false rest)
        | none => c :: bareUrlG fuel false cs
      else c :: bareUrlG fuel false cs

def bareUrl (l : List Char) : List Char := bareUrlG l.length true l

/-! ## Line-based steps of the markdown → HTML conversion -/

/-- A line matching `/^# .+$/` (hash, space, at least one further character). -/
def isH1Line (l : List Char) : Bool :=
  startsWithL "# ".data l && decide (3 ≤ l.length)

/-- `/^# .+$/gm` replaced by the empty string (the line is blanked, the
newlines remain). -/
def stripH1 (l : List Char) : List Char :=
  joinSep ['\n']
    ((splitChar '\n' l).map fun line => if isH1Line line then [] else line)

/-- Apply a per-line rewrite (for `gm`-anchored replaces whose replacement
contains no newline). -/
def lineMap (f : List Char → List Char) (l : List Char) : List Char :=
  joinSep ['\n'] ((splitChar '\n' l).map f)

/-- `/^## (.+)$/gm` → `<h2>$1</h2>`. -/
def h2Line (l : List Char) : List Char :=
  if startsWithL "## ".data l && decide (4 ≤ l.length) then
    "<h2>".data ++ l.drop 3 ++ "</h2>".data
  else l

/-- `/^### (.+)$/gm` → `<h3>$1</h3>`. -/
def h3Line (l : List Char) : List Char :=
  if startsWithL "### ".data l && decide (5 ≤ l.length) then
    "<h3>".data ++ l.drop 4 ++ "</h3>".data
  else l

/-- `/^#### (.+)$/gm` → `<h4>$1</h4>`. -/
def h4Line (l : List Char) : List Char :=
  if startsWithL "#### ".data l && decide (6 ≤ l.length) then
    "<h4>".data ++ l.drop 5 ++ "</h4>".data
  else l

/-- `/^- (.+)$/gm` → `<li>$1</li>`. -/
def liLine (l : List Char) : List Char :=
  if startsWithL "- ".data l && decide (3 ≤ l.length) then
    "<li>".data ++ l.drop 2 ++ "</li>".data
  else l

/-- The list-grouping loop: wrap each contiguous run of lines containing
`<li>` in `<ul>`/`</ul>` lines. -/
def groupGo : Bool → List (List Char) → List (List Char)
  | true, [] => ["</ul>".data]
  | false, [] => []
  | inList, line :: t =>
    if includesL "<li>".data line then
      if inList then line :: groupGo true t
      else "<ul>".data :: line :: groupGo true t
    else
      if inList then "</ul>".data :: line :: groupGo false t
      else line :: groupGo false t

def groupStep (l : List Char) : List Char :=
  joinSep ['\n'] (groupGo false (splitChar '\n' l))

/-- Paragraph wrapping: blocks already containing HTML markers are kept,
other blocks become `<p>…</p>` around their trimmed text. -/
def wrapPara (p : List Char) : List Char :=
  if includesL "<h".data p || includesL "<ul".data p
      || includesL "<figure".data p || includesL "<li".data p then p
  else "<p>".data ++ trimL p ++ "</p>".data

/-- Split on blank lines, drop whitespace-only blocks, wrap, re-join. -/
def paraStep (l : List Char) : List Char :=
  joinSep "\n\n".data
    (((splitNlNl l).filter fun p => trimL p ≠ []).map wrapPara)

/-- The full markdown → HTML conversion of the publish handler
(source steps in order, lines 1996–2056). -/
def mdToHtmlL (md : List Char) : List Char :=
  let s1 := removeImagesL md
  let s2 := replScan creditAMatch s1
  let s3 := replScan (creditMidMatch "Unsplash".data) s2
  let s4 := replScan (creditMidMatch "Photo".data) s3
  let s5 := stripH1 s4
  let s6 := lineMap h2Line s5
  let s7 := lineMap h3Line s6
  let s8 := lineMap h4Line s7
  let s9 := lineMap liLine s8
  let s10 := groupStep s9
  let s11 := replScan linkAnchorMatch s10
  let s12 := bareUrl s11
  let s13 := replScan boldMatch s12
  let s14 := replScan italicMatch s13
  paraStep s14

def mdToHtml (md : String) : String := String.mk (mdToHtmlL md.data)

/-! ## The excerpt extractor (source lines 2128–2173) -/

/-- Sentence filter of the excerpt loop: trimmed length strictly greater
than 20, not starting with `http(s)://`, not containing `unsplash`. -/
def sentQualifies (s : List Char) : Bool :=
  let t := trimL s
  decide (20 < t.length)
    && !(startsWithL "http://".data t || startsWithL "https://".data t)
    && !(includesL "unsplash".data t)

def isSentP (c : Char) : Bool := c = '.' || c = '!' || c = '?'

/-- First qualifying sentence of the cleaned text, trimmed. -/
def firstQualifyingL (cl : List Char) : Option (List Char) :=
  ((splitRuns isSentP cl).find? sentQualifies).map trimL

/-- `replace(/\s+\S*$/, '')` : drop the trailing word together with the
whitespace run before it (no change when the string is a single word with no
preceding whitespace). -/
def dropLastWord (l : List Char) : List Char :=
  match l.reverse.dropWhile (fun c => !jsWs c) with
  | [] => l
  | c :: r =>
    if jsWs c then ((c :: r).dropWhile jsWs).reverse else l

/-- The fixed generic fallback sentence. -/
def genericExcerpt : String :=
  "A comprehensive guide on sustainable fashion and ethical living."

/-- The cleaning pipeline applied to the original markdown before sentence
selection (source lines 2128–2155, in order). -/
def cleanedText (md : List Char) : List Char :=
  let s1 := stripH1 md
  let s2 := removeImagesL (removeImagesL s1)
  let s3 := replScan unsplashUrlMatch s2
  let s4 := replScan imagesUrlMatch s3
  let s5 := replScan creditAMatch s4
  let s6 := replScan (creditMidMatch "Unsplash".data) s5
  let s7 := replScan (creditMidMatch "Photo".data) s6
  let s8 := stripHashes s7
  let s9 := s8.filter fun c => !(c == '*' || c == '_' || c == btick || c == '#')
  let s10 := replScan linkKeepMatch s9
  let s11 := replScan wsRunMatch (replScan blankMatch s10)
  trimL s11

/-- The complete excerpt computation. -/
def extractExcerptL (md : List Char) : List Char :=
  let cl := cleanedText md
  let fe :=
    match firstQualifyingL cl with
    | some t => t ++ ['.']
    | none => if 20 < cl.length then dropLastWord (cl.take 160) else []
  if fe = [] then genericExcerpt.data else fe

def extractExcerpt (md : String) : String := String.mk (extractExcerptL md.data)

/-! ## The blog entity and the image-replace endpoint
(`PATCH /api/blogs/:id/images/:imageIndex`, source lines 2456–2536) -/

structure Blog where
  id : String
  title : String
  keyword : String
  content : String
  status : String
deriving DecidableEq, Repr

/-- The request's replacement image.  The empty string stands for a missing
(JS-falsy) field. -/
structure NewImage where
  url : String
  description : String
  alt_description : String
deriving DecidableEq, Repr

/-- JS `a || b` on strings (empty string is falsy). -/
def jsOrS (a b : String) : String := if a = "" then b else a

/-- The description used in the replacement reference:
`newImage.description || newImage.alt_description || alt`. -/
def replDesc (img : NewImage) (alt : List Char) : List Char :=
  (jsOrS img.description (jsOrS img.alt_description (String.mk alt))).data

/-- The JS `content.replace(imagePattern, callback)` with the index-counting
callback: returns (new content, final counter value, replaced flag).
`k` is the running occurrence counter, `target` the requested index. -/
def replaceNthG (img : NewImage) (target : ℕ) :
    ℕ → List Char → ℕ → List Char × ℕ × Bool
  | 0, l, k => (l, k, false)
  | _ + 1, [], k => ([], k, false)
  | fuel + 1, c :: cs, k =>
    match tryImage (c :: cs) with
    | some (a, u, rest) =>
      let res := replaceNthG img target fuel rest (k + 1)
      ((if k = target then imgRender (replDesc img a) img.url.data
        else imgRender a u) ++ res.1,
       res.2.1, res.2.2 || decide (k = target))
    | none =>
      let res := replaceNthG img target fuel cs k
      (c :: res.1, res.2)

def replaceNth (img : NewImage) (target : ℕ) (l : List Char) (k : ℕ) :
    List Char × ℕ × Bool :=
  replaceNthG img target l.length l k

/-- Specification-side update: replace the image segment whose (0-based)
occurrence index is `target`, leaving every other segment untouched. -/
def updSegs (img : NewImage) (target : ℕ) : ℕ → List Seg → List Seg
  | _, [] => []
  | k, Seg.lit c :: t => Seg.lit c :: updSegs img target k t
  | k, Seg.img a u :: t =>
    (if k = target then Seg.img (replDesc img a) img.url.data else Seg.img a u)
      :: updSegs img target (k + 1) t

structure ErrOut where
  status : ℕ
  error : String
deriving DecidableEq, Repr

/-- The `PATCH /api/blogs/:id/images/:imageIndex` handler, for a found blog
and a non-negative parsed index.  On success the stored blog is updated with
the new content only; on a missing image index a 400 error is returned and
the blog is left unchanged. -/
def replaceImageEndpoint (blog : Blog) (idx : ℕ) (img : NewImage) :
    Except ErrOut Blog :=
  if img.url = "" then Except.error ⟨400, "New image data is required"⟩
  else
    let res := replaceNth img idx blog.content.data 0
    if res.2.2 then Except.ok { blog with content := String.mk res.1 }
    else
      Except.error ⟨400, "Image index " ++ toString idx
        ++ " not found in content. Total images: " ++ toString res.2.1⟩

/-! ## Taxonomy resolution (source lines 2176–2253) -/

structure Cat where
  id : ℕ
  name : String
deriving DecidableEq, Repr

/-- Keep the requested category ids that exist in the live category list
(order and duplicates of the request preserved). -/
def validateCategories (requested : List ℕ) (avail : List Cat) : List ℕ :=
  requested.filter fun c => (avail.map Cat.id).contains c

/-- The content-keyword heuristic chain of the smart fallback
(AI/automation, income/business, travel/nomad), then the first available
category. -/
def smartFallback (title content : List Char) (avail : List Cat) : Option Cat :=
  let t := lowerL title
  let c := lowerL content
  let catHas (w : String) (cat : Cat) : Bool := includesL w.data (lowerL cat.name.data)
  let b1 : Option Cat :=
    if includesL "ai".data t || includesL "automation".data t
        || includesL "artificial intelligence".data c then
      avail.find? fun cat => catHas "ai" cat || catHas "automation" cat || catHas "tool" cat
    else none
  let b2 : Option Cat :=
    match b1 with
    | some cat => some cat
    | none =>
      if includesL "income".data t || includesL "money".data t
          || includesL "passive income".data c then
        avail.find? fun cat => catHas "income" cat || catHas "business" cat
          || catHas "affiliate" cat
      else none
  let b3 : Option Cat :=
    match b2 with
    | some cat => some cat
    | none =>
      if includesL "travel".data t || includesL "nomad".data t
          || includesL "digital nomad".data c then
        avail.find? fun cat => catHas "nomad" cat || catHas "travel" cat
          || catHas "abroad" cat
      else none
  match b3 with
  | some cat => some cat
  | none => avail.head?

/-- The complete category resolution: validate against the live list, then
the smart fallback when nothing validated and live categories exist. -/
def catResolve (requested : List ℕ) (title content : List Char)
    (avail : List Cat) : List ℕ :=
  let valid := validateCategories requested avail
  if valid = [] ∧ avail ≠ [] then
    match smartFallback title content avail with
    | some cat => [cat.id]
    | none => []
  else valid

/-! ## Credential resolution (source lines 1772–1800) -/

structure StoredCreds where
  wordpressUrl : String
  username : String
  password : String
deriving DecidableEq, Repr

/-- The hardcoded last-resort credentials of the handler. -/
def defaultCreds : String × String × String :=
  ("https://exoala.com", "exoala@brenthoke.com", "lG2y KvcO SAMO nasv SFB9 LeOT")

/-- Credential resolution: stored settings are consulted only when at least
one request-supplied field is missing; the hardcoded default is used only
when no stored settings record exists. -/
def resolveCreds (req : String × String × String) (stored : Option StoredCreds) :
    String × String × String :=
  if req.1 ≠ "" ∧ req.2.1 ≠ "" ∧ req.2.2 ≠ "" then req
  else
    match stored with
    | some sc =>
      (jsOrS sc.wordpressUrl req.1, jsOrS sc.username req.2.1, jsOrS sc.password req.2.2)
    | none => defaultCreds

/-! ## The authentication probe loop (source lines 1808–1854) -/

structure AuthTrace where
  success : Bool
  attempts : ℕ
  delays : List ℕ
deriving DecidableEq, Repr

/-- The probe loop: up to 3 attempts of `GET /wp-json/wp/v2/users/me`;
after a failed attempt `k < 3` the handler sleeps `k * 1000` ms. -/
def authGo (probe : ℕ → Bool) : ℕ → ℕ → List ℕ → AuthTrace
  | 0, _, dels => ⟨false, 3, dels⟩
  | fuel + 1, attempt, dels =>
    if probe attempt then ⟨true, attempt, dels⟩
    else if attempt < 3 then authGo probe fuel (attempt + 1) (dels ++ [attempt * 1000])
    else ⟨false, 3, dels⟩

def authLoop (probe : ℕ → Bool) : AuthTrace := authGo probe 3 1 []

/-! ## The create-post retry loop (source lines 2325–2390) -/

/-- Outcome of one `POST /wp-json/wp/v2/posts` attempt: a response with an
HTTP status, or a thrown error (network failure / abort on timeout). -/
inductive COutcome where
  | resp : ℕ → COutcome
  | netErr : COutcome
deriving DecidableEq, Repr

/-- Progressive per-attempt timeout: `min(30000 + (attempt-1)*15000, 135000)`. -/
def cpTimeout (k : ℕ) : ℕ := min (30000 + (k - 1) * 15000) 135000

/-- Progressive backoff delay: `min(3000 * 1.5^(attempt-1), 60000)` ms
(written as an `if` so that concrete runs evaluate by `decide`). -/
def cpDelay (k : ℕ) : ℚ :=
  if 3000 * (3 / 2 : ℚ) ^ (k - 1) ≤ 60000 then 3000 * (3 / 2 : ℚ) ^ (k - 1) else 60000

structure CPTrace where
  attempts : ℕ
  timeouts : List ℕ
  delays : List ℚ
  success : Bool
  lastStatus : Option ℕ
deriving DecidableEq, Repr

/-- The retry loop.  `attempt` is the 1-based attempt counter,
`last` the status of the last response received (the JS `response` variable),
`touts`/`dels` accumulate the timeouts used and the delays slept. -/
def cpGo (env : ℕ → COutcome) :
    ℕ → ℕ → Option ℕ → List ℕ → List ℚ → CPTrace
  | 0, _, last, touts, dels => ⟨8, touts, dels, false, last⟩
  | fuel + 1, attempt, last, touts, dels =>
    let t := cpTimeout attempt
    match env attempt with
    | COutcome.resp s =>
      if 200 ≤ s ∧ s < 300 then ⟨attempt, touts ++ [t], dels, true, some s⟩
      else if s = 401 ∨ s = 403 then ⟨attempt, touts ++ [t], dels, false, some s⟩
      else if attempt < 8 then
        cpGo env fuel (attempt + 1) (some s) (touts ++ [t]) (dels ++ [cpDelay attempt])
      else ⟨8, touts ++ [t], dels, false, some s⟩
    | COutcome.netErr =>
      if attempt < 8 then
        cpGo env fuel (attempt + 1) last (touts ++ [t]) (dels ++ [cpDelay attempt])
      else ⟨8, touts ++ [t], dels, false, last⟩

def createPostLoop (env : ℕ → COutcome) : CPTrace := cpGo env 8 1 none [] []

/-- A retryable (non-auth) failure: thrown error, or a response that is
neither 2xx nor 401/403. -/
def cpRetryable (o : COutcome) : Prop :=
  o = COutcome.netErr ∨
    ∃ s, o = COutcome.resp s ∧ ¬(200 ≤ s ∧ s < 300) ∧ s ≠ 401 ∧ s ≠ 403

/-- A 2xx response. -/
def cpIsOk (o : COutcome) : Prop :=
  ∃ s, o = COutcome.resp s ∧ 200 ≤ s ∧ s < 300

/-! ## The publish endpoint (`POST /api/blogs/:id/publish`, lines 1757–2453)

Network interactions are supplied by an environment record; the pure
computations between them (tag parsing, fallbacks, validation, content
transformation, payload construction, persistence arguments) are embedded
from the source. -/

/-- Request body fields used by the handler (empty string = missing field). -/
structure PubReq where
  wordpressUrl : String
  username : String
  password : String
  categoryId : Option ℕ
  metaDescription : String
  seoCategoryIds : Option (List ℕ)

/-- Result of the live-tags fetch: an ok response with the available tag ids,
a non-ok response, or a thrown error. -/
inductive FetchRes where
  | ok : List ℕ → FetchRes
  | notOk : FetchRes
  | exc : FetchRes

/-- Parsed create-post success response. -/
structure PostInfo where
  link : String
  id : ℕ

/-- Environment of one publish invocation: the blog lookup, stored settings,
and the outcome of every network interaction. -/
structure PublishEnv where
  blogLookup : Option Blog
  req : PubReq
  stored : Option StoredCreds
  authProbe : ℕ → Bool
  aiTags : Option (List Char)
  tagLookup : List Char → Option ℕ
  categoriesLive : List Cat
  tagsLive : FetchRes
  mediaUpload : Option ℕ
  createPost : ℕ → COutcome
  postResult : PostInfo
  now : String

/-- The HTTP response sent to the client (JSON fields; absent optional fields
keep their default). -/
structure HttpOut where
  status : ℕ
  success : Bool := false
  error : Option String := none
  details : Option String := none
  needsCredentials : Bool := false
  wordpressUrl : Option String := none
  publishedAt : Option String := none
  categoryId : Option ℕ := none
  tagIds : Option (List ℕ) := none
  metaDescription : Option String := none
deriving DecidableEq, Repr

/-- The fields passed to `storage.updateBlog` on success. -/
structure UpdateArgs where
  status : String
  wordpressUrl : String
  wordpressPostId : String
  publishedAt : String
  categoryId : Option String
  tagIds : List ℕ
  metaDescription : String
deriving DecidableEq, Repr

/-- The `wordpressData` payload of the create-post request. -/
structure WordpressData where
  title : String
  content : String
  status : String
  categories : List ℕ
  tags : List ℕ
  excerpt : String
  featured_media : Option ℕ
  metaDesc : String
  thumbnailId : String
  imageAlt : String
deriving DecidableEq, Repr, Inhabited

/-- Observable outcome of one publish invocation: the response, the
`storage.updateBlog` call (if any), the create-post payload (if built), the
featured-media id obtained from the upload, whether the content work
(tag generation, transformation, taxonomy) ran, and the retry-loop trace. -/
structure PublishOutcome where
  response : HttpOut
  update : Option UpdateArgs
  postBody : Option WordpressData
  featuredMediaId : Option ℕ
  contentWorkRan : Bool
  createTrace : Option CPTrace

/-- Parse the AI tag response: split on commas, trim, keep tags of length
1–25 (source line 1897). -/
def parseAiTags (s : List Char) : List (List Char) :=
  ((splitChar ',' s).map trimL).filter fun t => decide (0 < t.length) && decide (t.length ≤ 25)

/-- Fallback tags on a failed AI call (source lines 1903–1907). -/
def fallbackTags (blog : Blog) : List (List Char) :=
  let t := lowerL blog.title.data
  [blog.keyword.data]
    ++ (if includesL "business".data t then ["business strategy".data] else [])
    ++ (if includesL "tech".data t then ["technology".data] else [])
    ++ (if includesL "marketing".data t then ["marketing".data] else [])
    ++ ["productivity".data, "tips".data]

/-- The dynamic tag names used for this publish. -/
def dynamicTagsOf (env : PublishEnv) (blog : Blog) : List (List Char) :=
  match env.aiTags with
  | none => fallbackTags blog
  | some s => if trimL s = [] then [] else parseAiTags (trimL s)

/-- The WordPress tag ids collected by the per-tag search-or-create loop
(each tag independently fault-tolerant). -/
def tagIdsOf (env : PublishEnv) (blog : Blog) : List ℕ :=
  (dynamicTagsOf env blog).filterMap env.tagLookup

/-- Tag validation against the live tag list (source lines 2256–2281):
skipped when no tags; non-ok fetch keeps nothing; a thrown fetch error keeps
the original ids. -/
def validateTags (tagIds : List ℕ) (fetch : FetchRes) : List ℕ :=
  if tagIds = [] then []
  else
    match fetch with
    | FetchRes.ok avail => tagIds.filter fun t => avail.contains t
    | FetchRes.notOk => []
    | FetchRes.exc => tagIds

/-- The requested category ids:
`seoData?.categoryIds || (categoryId ? [categoryId] : [])`. -/
def requestedCategoryIds (req : PubReq) : List ℕ :=
  match req.seoCategoryIds with
  | some l => l
  | none => match req.categoryId with
    | some c => [c]
    | none => []

/-- The credentials this publish invocation resolves to. -/
def credsOf (env : PublishEnv) : String × String × String :=
  resolveCreds (env.req.wordpressUrl, env.req.username, env.req.password) env.stored

/-- The final-validation condition `!wordpressUrl || !username || !password`. -/
def credsMissing (c : String × String × String) : Prop :=
  c.1 = "" ∨ c.2.1 = "" ∨ c.2.2 = ""

instance (c : String × String × String) : Decidable (credsMissing c) := by
  unfold credsMissing
  infer_instance

/-- The complete publish handler. -/
def publishEndpoint (env : PublishEnv) : PublishOutcome :=
  match env.blogLookup with
  | none =>
    ⟨{ status := 404, error := some "Blog not found" }, none, none, none, false, none⟩
  | some blog =>
    let creds := credsOf env
    if credsMissing creds then
      ⟨{ status := 400, error := some "WordPress credentials are incomplete",
         needsCredentials := true }, none, none, none, false, none⟩
    else
      let auth := authLoop env.authProbe
      if auth.success = false then
        ⟨{ status := 401,
           error := some "WordPress authentication failed after multiple attempts",
           details := some "Please verify your WordPress URL, username, and application password",
           needsCredentials := true }, none, none, none, false, none⟩
      else
        let tagIds := tagIdsOf env blog
        let html := String.mk (mdToHtmlL blog.content.data)
        let feat := firstImage blog.content.data
        let featuredMediaId := if feat.isSome then env.mediaUpload else none
        let cleanExcerpt := String.mk (extractExcerptL blog.content.data)
        let validCategoryIds := catResolve (requestedCategoryIds env.req)
          blog.title.data blog.content.data env.categoriesLive
        let validTagIds := validateTags tagIds env.tagsLive
        let wd : WordpressData :=
          { title := blog.title
            content := html
            status := "publish"
            categories := validCategoryIds
            tags := validTagIds
            excerpt := cleanExcerpt
            featured_media := none
            metaDesc := jsOrS env.req.metaDescription cleanExcerpt
            thumbnailId := if feat.isSome then "external" else ""
            imageAlt := "Featured image" }
        let tr := createPostLoop env.createPost
        if tr.success then
          ⟨{ status := 200, success := true,
             wordpressUrl := some env.postResult.link,
             publishedAt := some env.now,
             categoryId := env.req.categoryId,
             tagIds := some tagIds,
             metaDescription := some env.req.metaDescription },
           some { status := "published"
                  wordpressUrl := env.postResult.link
                  wordpressPostId := toString env.postResult.id
                  publishedAt := env.now
                  categoryId := env.req.categoryId.map toString
                  tagIds := tagIds
                  metaDescription := env.req.metaDescription },
           some wd, featuredMediaId, true, some tr⟩
        else
          ⟨{ status := 500, error := some "Failed to publish to WordPress",
             details := some (match tr.lastStatus with
               | some st => "WordPress HTTP " ++ toString st ++ " error"
               | none => "WordPress publishing failed after 8 attempts") },
           none, some wd, featuredMediaId, true, some tr⟩

/-! ## Concrete instances used by witnesses and counterexamples -/

/-- A create-post environment with two consecutive network failures followed
by a 2xx response. -/
def twoFailEnv : ℕ → COutcome :=
  fun k => if k ≤ 2 then COutcome.netErr else COutcome.resp 200

def blogA : Blog := ⟨"b1", "t", "k", "", "draft"⟩

def reqA : PubReq := ⟨"https://w.example", "u", "p", none, "", none⟩

/-- A baseline environment: blog found, request credentials complete, probe
succeeds, AI tags empty, no live taxonomy, create-post succeeds at once. -/
def baseEnv : PublishEnv where
  blogLookup := some blogA
  req := reqA
  stored := none
  authProbe := fun _ => true
  aiTags := some []
  tagLookup := fun _ => none
  categoriesLive := []
  tagsLive := FetchRes.notOk
  mediaUpload := none
  createPost := fun _ => COutcome.resp 200
  postResult := ⟨"https://w.example/?p=5", 5⟩
  now := "2025-01-01T00:00:00.000Z"

/-- Create-post returns 401 on the first attempt. -/
def env401 : PublishEnv := { baseEnv with createPost := fun _ => COutcome.resp 401 }

/-- Every create-post attempt throws a network error. -/
def envNet : PublishEnv := { baseEnv with createPost := fun _ => COutcome.netErr }

/-- Requested category 99 does not exist in the live list `[{3, General}]`;
the AI produced one tag that resolves to id 7 but is absent from the live tag
list. -/
def envPersist : PublishEnv :=
  { baseEnv with
    req := { reqA with categoryId := some 99 }
    categoriesLive := [⟨3, "General"⟩]
    aiTags := some "x".data
    tagLookup := fun _ => some 7
    tagsLive := FetchRes.ok [] }

/-- Every authentication probe fails. -/
def envAuthFail : PublishEnv := { baseEnv with authProbe := fun _ => false }

/-- The blog content has a featured image and its upload succeeds with media
id 77. -/
def envMedia : PublishEnv :=
  { baseEnv with
    blogLookup := some { blogA with content := "![a](http://img.example/x.jpg)" }
    mediaUpload := some 77 }

/-- A blog with exactly two image references, for the image-replace witness. -/
def blogTwoImgs : Blog :=
  ⟨"b2", "t2", "k2", "A ![x](u1) B ![y](u2) C", "draft"⟩

def newImgW : NewImage := ⟨"u3", "d3", ""⟩

/-- Environment of the three-hundred-character excerpt counterexample. -/
def longWord : List Char := List.replicate 300 'a'

end BlogSys

namespace BlogSys

/-! # Helper lemmas -/

/-- Decomposition of a successful image match. -/
theorem tryImage_some {cs a u r : List Char}
    (h : tryImage cs = some (a, u, r)) : cs = imgRender a u ++ r := by
  unfold tryImage at h
  split at h
  case h_2 => exact absurd h (by simp)
  case h_1 rr =>
    split at h
    case h_2 => exact absurd h (by simp)
    case h_1 r2 heq2 =>
      split at h
      case h_2 => exact absurd h (by simp)
      case h_1 r3 heq3 =>
        split at h
        · exact absurd h (by simp)
        · injection h with h'
          rw [Prod.mk.injEq, Prod.mk.injEq] at h'
          obtain ⟨ha, hu, hr⟩ := h'
          subst ha; subst hu; subst hr
          have h1 := List.takeWhile_append_dropWhile (· != ']') rr
          rw [heq2] at h1
          have h2 := List.takeWhile_append_dropWhile (· != ')') r2
          rw [heq3] at h2
          simp only [imgRender, List.append_assoc, List.cons_append, List.nil_append]
          rw [h2, h1]

theorem imgRender_length (a u : List Char) :
    (imgRender a u).length = a.length + u.length + 5 := by
  simp [imgRender]; omega

theorem tryImage_lt {cs a u r : List Char}
    (h : tryImage cs = some (a, u, r)) : r.length < cs.length := by
  have := tryImage_some h
  subst this
  simp [imgRender_length]

theorem imgDel_shrink : Shrink imgDel := by
  intro cs p h
  unfold imgDel at h
  cases htr : tryImage cs with
  | none => rw [htr] at h; exact absurd h (by simp)
  | some x =>
    rw [htr] at h
    obtain ⟨a, u, r⟩ := x
    simp only [Option.map_some'] at h
    cases h
    exact tryImage_lt htr

/-! ### Fuel congruence and one-step unfolding for the generic scanner -/

theorem replScanG_congr {f : List Char → Option (List Char × List Char)}
    (hf : Shrink f) :
    ∀ (n₁ : ℕ) (l : List Char) (n₂ : ℕ), l.length ≤ n₁ → l.length ≤ n₂ →
      replScanG f n₁ l = replScanG f n₂ l := by
  intro n₁
  induction n₁ with
  | zero =>
    intro l n₂ h1 _
    have : l = [] := List.eq_nil_of_length_eq_zero (Nat.le_zero.mp h1)
    subst this
    cases n₂ <;> rfl
  | succ n ih =>
    intro l n₂ h1 h2
    cases l with
    | nil => cases n₂ <;> rfl
    | cons c cs =>
      cases n₂ with
      | zero => simp at h2
      | succ m =>
        simp only [replScanG]
        cases hfc : f (c :: cs) with
        | none =>
          have hcs : cs.length ≤ n := by simp at h1; omega
          have hcs2 : cs.length ≤ m := by simp at h2; omega
          rw [ih cs m hcs hcs2]
        | some p =>
          obtain ⟨rep, rest⟩ := p
          have hlt := hf _ _ hfc
          dsimp only at hlt
          simp only [List.length_cons] at h1 h2 hlt
          have hr1 : rest.length ≤ n := by omega
          have hr2 : rest.length ≤ m := by omega
          dsimp only
          rw [ih rest m hr1 hr2]

theorem replScan_cons {f : List Char → Option (List Char × List Char)}
    (hf : Shrink f) (c : Char) (cs : List Char) :
    replScan f (c :: cs) =
      match f (c :: cs) with
      | some (rep, rest) => rep ++ replScan f rest
      | none => c :: replScan f cs := by
  show replScanG f (cs.length + 1) (c :: cs) = _
  simp only [replScanG]
  cases hfc : f (c :: cs) with
  | none => rfl
  | some p =>
    obtain ⟨rep, rest⟩ := p
    have hlt := hf _ _ hfc
    dsimp only at hlt
    simp only [List.length_cons] at hlt
    simp only [replScan]
    rw [replScanG_congr hf cs.length rest rest.length (by omega) le_rfl]

theorem replScan_nil (f : List Char → Option (List Char × List Char)) :
    replScan f [] = [] := rfl

/-! ### The segment parse: fuel congruence, unfolding, round trip -/

theorem parseSegsG_congr :
    ∀ (n₁ : ℕ) (l : List Char) (n₂ : ℕ), l.length ≤ n₁ → l.length ≤ n₂ →
      parseSegsG n₁ l = parseSegsG n₂ l := by
  intro n₁
  induction n₁ with
  | zero =>
    intro l n₂ h1 _
    have : l = [] := List.eq_nil_of_length_eq_zero (Nat.le_zero.mp h1)
    subst this
    cases n₂ <;> rfl
  | succ n ih =>
    intro l n₂ h1 h2
    cases l with
    | nil => cases n₂ <;> rfl
    | cons c cs =>
      cases n₂ with
      | zero => simp at h2
      | succ m =>
        simp only [parseSegsG]
        cases hfc : tryImage (c :: cs) with
        | none =>
          have hcs : cs.length ≤ n := by simp at h1; omega
          have hcs2 : cs.length ≤ m := by simp at h2; omega
          rw [ih cs m hcs hcs2]
        | some p =>
          obtain ⟨a, u, rest⟩ := p
          have hlt := tryImage_lt hfc
          simp only [List.length_cons] at h1 h2 hlt
          have hr1 : rest.length ≤ n := by omega
          have hr2 : rest.length ≤ m := by omega
          dsimp only
          rw [ih rest m hr1 hr2]

theorem parseSegs_cons (c : Char) (cs : List Char) :
    parseSegs (c :: cs) =
      match tryImage (c :: cs) with
      | some (a, u, r) => Seg.img a u :: parseSegs r
      | none => Seg.lit c :: parseSegs cs := by
  show parseSegsG (cs.length + 1) (c :: cs) = _
  simp only [parseSegsG]
  cases hfc : tryImage (c :: cs) with
  | none => rfl
  | some p =>
    obtain ⟨a, u, rest⟩ := p
    have hlt := tryImage_lt hfc
    simp only [List.length_cons] at hlt
    simp only [parseSegs]
    rw [parseSegsG_congr cs.length rest rest.length (by omega) le_rfl]

theorem parseSegs_nil : parseSegs [] = [] := rfl

/-- Rendering the parse gives back the original content: the segment
decomposition loses nothing (this is what makes "every other character is
unchanged" statements meaningful). -/
theorem renderSegs_parseSegs (cs : List Char) : renderSegs (parseSegs cs) = cs := by
  have main : ∀ (n : ℕ) (l : List Char), l.length ≤ n →
      renderSegs (parseSegs l) = l := by
    intro n
    induction n with
    | zero =>
      intro l h1
      have : l = [] := List.eq_nil_of_length_eq_zero (Nat.le_zero.mp h1)
      subst this; rfl
    | succ n ih =>
      intro l h1
      cases l with
      | nil => rfl
      | cons c cs =>
        rw [parseSegs_cons]
        cases hfc : tryImage (c :: cs) with
        | none =>
          simp only [renderSegs]
          rw [ih cs (by simp at h1; omega)]
        | some p =>
          obtain ⟨a, u, rest⟩ := p
          have hd := tryImage_some hfc
          have hlt := tryImage_lt hfc
          simp only [renderSegs]
          simp only [List.length_cons] at h1 hlt
          rw [ih rest (by omega), hd]
  exact main cs.length cs le_rfl

/-- The single-pass image removal returns exactly the non-image characters of
the input, in order. -/
theorem removeImagesL_eq_litChars (cs : List Char) :
    removeImagesL cs = litChars (parseSegs cs) := by
  have main : ∀ (n : ℕ) (l : List Char), l.length ≤ n →
      removeImagesL l = litChars (parseSegs l) := by
    intro n
    induction n with
    | zero =>
      intro l h1
      have : l = [] := List.eq_nil_of_length_eq_zero (Nat.le_zero.mp h1)
      subst this; rfl
    | succ n ih =>
      intro l h1
      cases l with
      | nil => rfl
      | cons c cs =>
        unfold removeImagesL
        rw [replScan_cons imgDel_shrink, parseSegs_cons]
        cases hfc : tryImage (c :: cs) with
        | none =>
          have hdel : imgDel (c :: cs) = none := by simp [imgDel, hfc]
          rw [hdel]
          dsimp only [litChars]
          exact congrArg (c :: ·) (ih cs (by simp at h1; omega))
        | some p =>
          obtain ⟨a, u, rest⟩ := p
          have hdel : imgDel (c :: cs) = some ([], rest) := by simp [imgDel, hfc]
          rw [hdel]
          have hlt := tryImage_lt hfc
          dsimp only [litChars]
          simp only [List.nil_append]
          simp only [List.length_cons] at h1 hlt
          exact ih rest (by omega)
  exact main cs.length cs le_rfl

/-! ### The occurrence-counting replace of the image-replace endpoint -/

theorem replaceNthG_congr (img : NewImage) (t : ℕ) :
    ∀ (n₁ : ℕ) (l : List Char) (n₂ k : ℕ), l.length ≤ n₁ → l.length ≤ n₂ →
      replaceNthG img t n₁ l k = replaceNthG img t n₂ l k := by
  intro n₁
  induction n₁ with
  | zero =>
    intro l n₂ k h1 _
    have : l = [] := List.eq_nil_of_length_eq_zero (Nat.le_zero.mp h1)
    subst this
    cases n₂ <;> rfl
  | succ n ih =>
    intro l n₂ k h1 h2
    cases l with
    | nil => cases n₂ <;> rfl
    | cons c cs =>
      cases n₂ with
      | zero => simp at h2
      | succ m =>
        simp only [replaceNthG]
        cases hfc : tryImage (c :: cs) with
        | none =>
          simp only [List.length_cons] at h1 h2
          rw [ih cs m k (by omega) (by omega)]
        | some p =>
          obtain ⟨a, u, rest⟩ := p
          have hlt := tryImage_lt hfc
          simp only [List.length_cons] at h1 h2 hlt
          dsimp only
          rw [ih rest m (k + 1) (by omega) (by omega)]

theorem replaceNth_cons (img : NewImage) (t : ℕ) (c : Char) (cs : List Char) (k : ℕ) :
    replaceNth img t (c :: cs) k =
      match tryImage (c :: cs) with
      | some (a, u, rest) =>
        ((if k = t then imgRender (replDesc img a) img.url.data
          else imgRender a u) ++ (replaceNth img t rest (k + 1)).1,
         (replaceNth img t rest (k + 1)).2.1,
         (replaceNth img t rest (k + 1)).2.2 || decide (k = t))
      | none =>
        ((c :: (replaceNth img t cs k).1), (replaceNth img t cs k).2) := by
  show replaceNthG img t (cs.length + 1) (c :: cs) k = _
  simp only [replaceNthG]
  cases hfc : tryImage (c :: cs) with
  | none => rfl
  | some p =>
    obtain ⟨a, u, rest⟩ := p
    have hlt := tryImage_lt hfc
    simp only [List.length_cons] at hlt
    simp only [replaceNth]
    rw [replaceNthG_congr img t cs.length rest rest.length (k + 1) (by omega) le_rfl]

/-- The JS callback-counting replace is exactly: render of the parse with the
`target`-th image segment replaced; the final counter is the number of image
references; the `replaced` flag reports whether the target index exists. -/
theorem replaceNth_spec (img : NewImage) (t : ℕ) (cs : List Char) (k : ℕ) :
    replaceNth img t cs k =
      (renderSegs (updSegs img t k (parseSegs cs)),
       k + (parseSegs cs).countP isImgSeg,
       decide (k ≤ t ∧ t < k + (parseSegs cs).countP isImgSeg)) := by
  have main : ∀ (n : ℕ) (l : List Char) (k : ℕ), l.length ≤ n →
      replaceNth img t l k =
        (renderSegs (updSegs img t k (parseSegs l)),
         k + (parseSegs l).countP isImgSeg,
         decide (k ≤ t ∧ t < k + (parseSegs l).countP isImgSeg)) := by
    intro n
    induction n with
    | zero =>
      intro l k h1
      have hl : l = [] := List.eq_nil_of_length_eq_zero (Nat.le_zero.mp h1)
      subst hl
      simp only [replaceNth, List.length_nil, replaceNthG, parseSegs, parseSegsG,
        List.countP_nil, Nat.add_zero, updSegs, renderSegs, Prod.mk.injEq]
      refine ⟨trivial, trivial, ?_⟩
      rw [eq_comm, decide_eq_false_iff_not]
      omega
    | succ n ih =>
      intro l k h1
      cases l with
      | nil =>
        simp only [replaceNth, List.length_nil, replaceNthG, parseSegs, parseSegsG,
          List.countP_nil, Nat.add_zero, updSegs, renderSegs, Prod.mk.injEq]
        refine ⟨trivial, trivial, ?_⟩
        rw [eq_comm, decide_eq_false_iff_not]
        omega
      | cons c cs =>
        rw [replaceNth_cons, parseSegs_cons]
        cases hfc : tryImage (c :: cs) with
        | none =>
          simp only [List.length_cons] at h1
          dsimp only
          rw [ih cs k (by omega)]
          simp only [updSegs, renderSegs, List.countP_cons, isImgSeg]
          simp
        | some p =>
          obtain ⟨a, u, rest⟩ := p
          have hlt := tryImage_lt hfc
          simp only [List.length_cons] at h1 hlt
          dsimp only
          rw [ih rest (k + 1) (by omega)]
          simp only [updSegs, renderSegs, List.countP_cons, isImgSeg]
          refine Prod.ext ?_ (Prod.ext ?_ ?_)
          · by_cases hkt : k = t <;> simp [hkt, renderSegs]
          · simp; omega
          · simp only [if_true]
            rw [Bool.eq_iff_iff]
            simp only [Bool.or_eq_true, decide_eq_true_eq]
            omega
  exact main cs.length cs k le_rfl

/-! ### Lines: `splitChar` / `joinSep` facts -/

theorem splitChar_ne_nil (sep : Char) (l : List Char) : splitChar sep l ≠ [] := by
  induction l with
  | nil => simp [splitChar]
  | cons c cs ih =>
    simp only [splitChar]
    cases h : splitChar sep cs with
    | nil => exact absurd h ih
    | cons hh tt =>
      dsimp only
      by_cases hc : c = sep <;> simp [hc]

theorem splitChar_no_sep (sep : Char) (l : List Char) :
    ∀ p ∈ splitChar sep l, sep ∉ p := by
  induction l with
  | nil =>
    intro p hp
    simp [splitChar] at hp
    subst hp
    simp
  | cons c cs ih =>
    intro p hp
    simp only [splitChar] at hp
    cases h : splitChar sep cs with
    | nil => exact absurd h (splitChar_ne_nil sep cs)
    | cons hh tt =>
      rw [h] at hp
      dsimp only at hp
      by_cases hcs : c = sep
      · rw [if_pos hcs] at hp
        rcases List.mem_cons.mp hp with rfl | hp2
        · simp
        · exact ih p (by rw [h]; exact hp2)
      · rw [if_neg hcs] at hp
        rcases List.mem_cons.mp hp with rfl | hp2
        · intro hmem
          rcases List.mem_cons.mp hmem with rfl | hmem2
          · exact hcs rfl
          · exact ih hh (by rw [h]; exact List.mem_cons_self hh tt) hmem2
        · exact ih p (by rw [h]; exact List.mem_cons_of_mem hh hp2)

theorem splitChar_single {sep : Char} {l : List Char} (h : sep ∉ l) :
    splitChar sep l = [l] := by
  induction l with
  | nil => rfl
  | cons c cs ih =>
    simp only [splitChar]
    have hc : ¬c = sep := fun hc => h (hc ▸ List.mem_cons_self c cs)
    have hcs : sep ∉ cs := fun hm => h (List.mem_cons_of_mem c hm)
    rw [ih hcs]
    dsimp only
    rw [if_neg hc]

theorem splitChar_append (sep : Char) (a r : List Char) (ha : sep ∉ a) :
    splitChar sep (a ++ sep :: r) = a :: splitChar sep r := by
  induction a with
  | nil =>
    simp only [List.nil_append, splitChar]
    cases h : splitChar sep r with
    | nil => exact absurd h (splitChar_ne_nil sep r)
    | cons hh tt => simp
  | cons x a' ih =>
    have hx : ¬x = sep := fun hc => ha (hc ▸ List.mem_cons_self x a')
    have ha' : sep ∉ a' := fun hm => ha (List.mem_cons_of_mem x hm)
    simp only [List.cons_append, splitChar, List.append_eq]
    rw [ih ha']
    dsimp only
    rw [if_neg hx]

theorem splitChar_joinSep (sep : Char) (ls : List (List Char)) (hne : ls ≠ [])
    (h : ∀ p ∈ ls, sep ∉ p) :
    splitChar sep (joinSep [sep] ls) = ls := by
  induction ls with
  | nil => exact absurd rfl hne
  | cons x t ih =>
    cases t with
    | nil =>
      simp only [joinSep]
      exact splitChar_single (h x (List.mem_cons_self x []))
    | cons y t2 =>
      simp only [joinSep]
      have : x ++ [sep] ++ joinSep [sep] (y :: t2) = x ++ sep :: joinSep [sep] (y :: t2) := by
        simp
      rw [this, splitChar_append sep x _ (h x (List.mem_cons_self x _))]
      rw [ih (by simp) (fun p hp => h p (List.mem_cons_of_mem x hp))]

/-- The lines of the heading-stripped content are the original lines, with
`# …` heading lines blanked. -/
theorem stripH1_lines (md : List Char) :
    splitChar '\n' (stripH1 md) =
      (splitChar '\n' md).map fun line => if isH1Line line then [] else line := by
  unfold stripH1
  apply splitChar_joinSep
  · simp [splitChar_ne_nil '\n' md]
  · intro p hp
    rcases List.mem_map.mp hp with ⟨line, hline, rfl⟩
    by_cases h1 : isH1Line line
    · simp [h1]
    · simp only [if_neg h1]
      exact splitChar_no_sep '\n' md line hline

/-! ### Length facts for the excerpt fallback -/

theorem length_dropWhile_le (p : Char → Bool) (l : List Char) :
    (l.dropWhile p).length ≤ l.length := by
  induction l with
  | nil => simp
  | cons c cs ih =>
    rw [List.dropWhile_cons]
    split
    · exact le_trans ih (by simp)
    · exact le_rfl

theorem dropLastWord_length_le (l : List Char) :
    (dropLastWord l).length ≤ l.length := by
  unfold dropLastWord
  split
  case h_1 => exact le_rfl
  case h_2 c r heq =>
    split
    · calc ((c :: r).dropWhile jsWs).reverse.length
          = ((c :: r).dropWhile jsWs).length := by simp
        _ ≤ (c :: r).length := length_dropWhile_le _ _
        _ = (l.reverse.dropWhile (fun x => !jsWs x)).length := by rw [heq]
        _ ≤ l.reverse.length := length_dropWhile_le _ _
        _ = l.length := by simp
    · exact le_rfl

/-! ### The authentication probe loop -/

theorem authGo_spec (probe : ℕ → Bool) :
    ∀ (fuel attempt : ℕ) (dels : List ℕ), attempt + fuel = 4 → 1 ≤ attempt →
      (authGo probe fuel attempt dels).attempts ≤ 3 ∧
      (attempt ≤ 3 → attempt ≤ (authGo probe fuel attempt dels).attempts) ∧
      (authGo probe fuel attempt dels).delays =
        dels ++ (List.range' attempt ((authGo probe fuel attempt dels).attempts - attempt)).map
          (· * 1000) := by
  intro fuel
  induction fuel with
  | zero =>
    intro attempt dels h4 h1
    simp only [authGo]
    refine ⟨by omega, by omega, ?_⟩
    have h0 : (3 : ℕ) - attempt = 0 := by omega
    rw [h0]
    simp
  | succ n ih =>
    intro attempt dels h4 h1
    simp only [authGo]
    by_cases hp : probe attempt
    · rw [if_pos hp]
      dsimp only
      refine ⟨by omega, fun _ => le_rfl, ?_⟩
      rw [Nat.sub_self]
      simp
    · rw [if_neg hp]
      by_cases ha : attempt < 3
      · rw [if_pos ha]
        obtain ⟨b1, b2, b3⟩ := ih (attempt + 1) (dels ++ [attempt * 1000]) (by omega) (by omega)
        have hA := b2 (by omega)
        refine ⟨b1, fun _ => by omega, ?_⟩
        rw [b3]
        have hsplit : (authGo probe n (attempt + 1) (dels ++ [attempt * 1000])).attempts - attempt
            = ((authGo probe n (attempt + 1) (dels ++ [attempt * 1000])).attempts - (attempt + 1)) + 1 := by
          omega
        rw [hsplit, List.range'_succ]
        simp
      · rw [if_neg ha]
        dsimp only
        refine ⟨le_rfl, fun h => h, ?_⟩
        have h0 : (3 : ℕ) - attempt = 0 := by omega
        rw [h0]
        simp

theorem authLoop_all_fail (probe : ℕ → Bool)
    (h : ∀ k, 1 ≤ k → k ≤ 3 → probe k = false) :
    authLoop probe = ⟨false, 3, [1000, 2000]⟩ := by
  have h1 := h 1 (by omega) (by omega)
  have h2 := h 2 (by omega) (by omega)
  have h3 := h 3 (by omega) (by omega)
  simp [authLoop, authGo, h1, h2, h3]

/-! ### The create-post retry loop -/

theorem cpGo_spec (env : ℕ → COutcome) :
    ∀ (fuel attempt : ℕ) (last : Option ℕ) (touts : List ℕ) (dels : List ℚ),
      attempt + fuel = 9 → 1 ≤ attempt →
      (attempt - 1 ≤ (cpGo env fuel attempt last touts dels).attempts ∧
        (cpGo env fuel attempt last touts dels).attempts ≤ 8) ∧
      (cpGo env fuel attempt last touts dels).timeouts =
        touts ++ (List.range' attempt
          ((cpGo env fuel attempt last touts dels).attempts + 1 - attempt)).map cpTimeout := by
  intro fuel
  induction fuel with
  | zero =>
    intro attempt last touts dels h9 h1
    simp only [cpGo]
    refine ⟨⟨by omega, by omega⟩, ?_⟩
    have h0 : (8 : ℕ) + 1 - attempt = 0 := by omega
    rw [h0]
    simp
  | succ n ih =>
    intro attempt last touts dels h9 h1
    simp only [cpGo]
    cases henv : env attempt with
    | resp s =>
      dsimp only
      by_cases hok : 200 ≤ s ∧ s < 300
      · rw [if_pos hok]
        dsimp only
        refine ⟨⟨by omega, by omega⟩, ?_⟩
        have h2 : attempt + 1 - attempt = 1 := by omega
        rw [h2, List.range'_one]
        simp
      · rw [if_neg hok]
        by_cases hauth : s = 401 ∨ s = 403
        · rw [if_pos hauth]
          dsimp only
          refine ⟨⟨by omega, by omega⟩, ?_⟩
          have h2 : attempt + 1 - attempt = 1 := by omega
          rw [h2, List.range'_one]
          simp
        · rw [if_neg hauth]
          by_cases hlt8 : attempt < 8
          · rw [if_pos hlt8]
            obtain ⟨⟨b1, b2⟩, b3⟩ := ih (attempt + 1) (some s)
              (touts ++ [cpTimeout attempt]) (dels ++ [cpDelay attempt]) (by omega) (by omega)
            refine ⟨⟨by omega, b2⟩, ?_⟩
            rw [b3]
            have hsplit :
                (cpGo env n (attempt + 1) (some s) (touts ++ [cpTimeout attempt])
                  (dels ++ [cpDelay attempt])).attempts + 1 - attempt
                = ((cpGo env n (attempt + 1) (some s) (touts ++ [cpTimeout attempt])
                  (dels ++ [cpDelay attempt])).attempts + 1 - (attempt + 1)) + 1 := by
              omega
            rw [hsplit, List.range'_succ]
            simp
          · rw [if_neg hlt8]
            have h8 : attempt = 8 := by omega
            subst h8
            dsimp only
            refine ⟨⟨by omega, by omega⟩, ?_⟩
            simp [List.range'_one]
    | netErr =>
      dsimp only
      by_cases hlt8 : attempt < 8
      · rw [if_pos hlt8]
        obtain ⟨⟨b1, b2⟩, b3⟩ := ih (attempt + 1) last
          (touts ++ [cpTimeout attempt]) (dels ++ [cpDelay attempt]) (by omega) (by omega)
        refine ⟨⟨by omega, b2⟩, ?_⟩
        rw [b3]
        have hsplit :
            (cpGo env n (attempt + 1) last (touts ++ [cpTimeout attempt])
              (dels ++ [cpDelay attempt])).attempts + 1 - attempt
            = ((cpGo env n (attempt + 1) last (touts ++ [cpTimeout attempt])
              (dels ++ [cpDelay attempt])).attempts + 1 - (attempt + 1)) + 1 := by
          omega
        rw [hsplit, List.range'_succ]
        simp
      · rw [if_neg hlt8]
        have h8 : attempt = 8 := by omega
        subst h8
        dsimp only
        refine ⟨⟨by omega, by omega⟩, ?_⟩
        simp [List.range'_one]

theorem cpGo_prefix (env : ℕ → COutcome) :
    ∀ (k fuel attempt : ℕ) (last : Option ℕ) (touts : List ℕ) (dels : List ℚ),
      attempt + fuel = 9 → 1 ≤ attempt → attempt + k ≤ 8 →
      (∀ j, attempt ≤ j → j < attempt + k → cpRetryable (env j)) →
      cpIsOk (env (attempt + k)) →
      (cpGo env fuel attempt last touts dels).success = true ∧
      (cpGo env fuel attempt last touts dels).attempts = attempt + k ∧
      (cpGo env fuel attempt last touts dels).delays =
        dels ++ (List.range' attempt k).map cpDelay := by
  intro k
  induction k with
  | zero =>
    intro fuel attempt last touts dels h9 h1 h8 hfail hok
    obtain ⟨s, hs, hs1, hs2⟩ := hok
    rw [Nat.add_zero] at hs
    cases fuel with
    | zero => omega
    | succ n =>
      simp only [cpGo, hs]
      rw [if_pos ⟨hs1, hs2⟩]
      dsimp only
      exact ⟨rfl, by omega, by simp⟩
  | succ k ih =>
    intro fuel attempt last touts dels h9 h1 h8 hfail hok
    cases fuel with
    | zero => omega
    | succ n =>
      have hok' : cpIsOk (env (attempt + 1 + k)) := by
        have he : attempt + 1 + k = attempt + (k + 1) := by omega
        rw [he]
        exact hok
      have hR := hfail attempt le_rfl (by omega)
      rcases hR with hnet | ⟨s, hs, hnok, h401, h403⟩
      · simp only [cpGo, hnet]
        rw [if_pos (by omega : attempt < 8)]
        obtain ⟨c1, c2, c3⟩ := ih n (attempt + 1) last
          (touts ++ [cpTimeout attempt]) (dels ++ [cpDelay attempt]) (by omega) (by omega)
          (by omega) (fun j hj1 hj2 => hfail j (by omega) (by omega)) hok'
        refine ⟨c1, by rw [c2]; omega, ?_⟩
        rw [c3, List.range'_succ]
        simp
      · simp only [cpGo, hs]
        rw [if_neg hnok, if_neg (by tauto : ¬(s = 401 ∨ s = 403)),
          if_pos (by omega : attempt < 8)]
        obtain ⟨c1, c2, c3⟩ := ih n (attempt + 1) (some s)
          (touts ++ [cpTimeout attempt]) (dels ++ [cpDelay attempt]) (by omega) (by omega)
          (by omega) (fun j hj1 hj2 => hfail j (by omega) (by omega)) hok'
        refine ⟨c1, by rw [c2]; omega, ?_⟩
        rw [c3, List.range'_succ]
        simp

/-! # Claims -/

/-- Claim C1: in the publish endpoint's CreatePost loop, at most 8 attempts
are made per invocation; attempt `k` (1-based) runs under a timeout of
`min(30s + (k-1)·15s, 135s)`; every non-auth failure that precedes a further
attempt is followed by a delay of `min(3000·1.5^(k-1) ms, 60s)`; the loop
stops at the first 2xx response; and with 2 consecutive failures followed by
a 2xx, exactly 3 attempts are made with delays of 3000 ms then 4500 ms. -/
theorem createPost_retry_policy :
    (∀ env, (createPostLoop env).attempts ≤ 8) ∧
    (∀ env, (createPostLoop env).timeouts =
      (List.range (createPostLoop env).attempts).map
        (fun i => min (30000 + i * 15000) 135000)) ∧
    (∀ env k, k + 1 ≤ 8 → (∀ j, 1 ≤ j → j ≤ k → cpRetryable (env j)) →
      cpIsOk (env (k + 1)) →
      (createPostLoop env).success = true ∧
      (createPostLoop env).attempts = k + 1 ∧
      (createPostLoop env).delays =
        (List.range k).map (fun i => min (3000 * (3 / 2 : ℚ) ^ i) 60000)) ∧
    createPostLoop twoFailEnv =
      ⟨3, [30000, 45000, 60000], [3000, 4500], true, some 200⟩ := by
  refine ⟨?_, ?_, ?_, ?_⟩
  · intro env
    exact (cpGo_spec env 8 1 none [] [] (by omega) (by omega)).1.2
  · intro env
    have h := (cpGo_spec env 8 1 none [] [] (by omega) (by omega)).2
    show (cpGo env 8 1 none [] []).timeouts = _
    rw [h, List.nil_append, Nat.add_sub_cancel, List.range'_eq_map_range, List.map_map]
    apply List.map_congr_left
    intro i _
    simp [cpTimeout, Function.comp, Nat.add_sub_cancel_left]
  · intro env k h8 hfail hok
    have h := cpGo_prefix env k 8 1 none [] [] (by omega) (by omega) (by omega)
      (fun j hj1 hj2 => hfail j hj1 (by omega))
      (by rw [show 1 + k = k + 1 by omega]; exact hok)
    obtain ⟨c1, c2, c3⟩ := h
    unfold createPostLoop
    refine ⟨c1, by rw [c2]; omega, ?_⟩
    rw [c3, List.nil_append, List.range'_eq_map_range, List.map_map]
    apply List.map_congr_left
    intro i _
    show cpDelay (1 + i) = _
    rw [cpDelay, min_def]
    simp [Nat.add_sub_cancel_left]
  · simp only [createPostLoop, cpGo, twoFailEnv]
    norm_num [cpTimeout, cpDelay]

/-- Witness for C1: instantiates the first-2xx conjunct at the concrete
two-failures-then-success environment. -/
theorem createPost_retry_policy_witness :
    (createPostLoop twoFailEnv).success = true ∧
    (createPostLoop twoFailEnv).attempts = 3 ∧
    (createPostLoop twoFailEnv).delays =
      (List.range 2).map (fun i => min (3000 * (3 / 2 : ℚ) ^ i) 60000) :=
  createPost_retry_policy.2.2.1 twoFailEnv 2 (by omega)
    (fun j hj1 hj2 => Or.inl (by unfold twoFailEnv; rw [if_pos hj2]))
    ⟨200, by unfold twoFailEnv; rw [if_neg (by omega)], by omega, by omega⟩

/-- A create-post loop whose first attempt receives HTTP 401 stops at once. -/
theorem createPostLoop_401 (env : ℕ → COutcome) (h : env 1 = COutcome.resp 401) :
    createPostLoop env = ⟨1, [30000], [], false, some 401⟩ := by
  simp only [createPostLoop, cpGo, h]
  norm_num [cpTimeout]

/-- Claim C2 counterexample: a CreatePost 401 on attempt 1 does stop the loop
after exactly one attempt, but the HTTP failure returned is the generic 500
`Failed to publish to WordPress` without the `needsCredentials` marker, with
the same status and error field as a pure network-failure run — it does not
distinguish the authentication failure. -/
theorem createPost_auth_failure_counterexample :
    (publishEndpoint env401).createTrace = some ⟨1, [30000], [], false, some 401⟩ ∧
    (publishEndpoint env401).response.needsCredentials = false ∧
    (publishEndpoint env401).response.status = 500 ∧
    (publishEndpoint env401).response.status = (publishEndpoint envNet).response.status ∧
    (publishEndpoint env401).response.error = (publishEndpoint envNet).response.error := by
  exact ⟨by decide, by decide, by decide, by decide, by decide⟩

/-- Claim C2 amended: an HTTP 401/403 on a CreatePost attempt stops the
retries immediately (a 401 on attempt 1 means exactly 1 attempt), but the
failure returned to the caller is the generic publish failure — HTTP 500 with
error `Failed to publish to WordPress` and only the textual detail
`WordPress HTTP 401 error` — without the `needsCredentials` flag; responses
carrying `needsCredentials` are only produced before the create-post loop
runs. -/
theorem createPost_auth_failure_amended :
    (∀ env blog, env.blogLookup = some blog →
      ¬credsMissing (credsOf env) →
      (authLoop env.authProbe).success = true →
      env.createPost 1 = COutcome.resp 401 →
      (publishEndpoint env).createTrace = some ⟨1, [30000], [], false, some 401⟩ ∧
      (publishEndpoint env).response.status = 500 ∧
      (publishEndpoint env).response.error = some "Failed to publish to WordPress" ∧
      (publishEndpoint env).response.details = some "WordPress HTTP 401 error" ∧
      (publishEndpoint env).response.needsCredentials = false ∧
      (publishEndpoint env).update = none) ∧
    (∀ env, (publishEndpoint env).response.needsCredentials = true →
      (publishEndpoint env).createTrace = none ∧ (publishEndpoint env).update = none) := by
  constructor
  · intro env blog hblog hcred hauth h401
    have hloop := createPostLoop_401 env.createPost h401
    unfold publishEndpoint
    rw [hblog]
    dsimp only
    rw [if_neg hcred, if_neg (by rw [hauth]; simp), hloop]
    rw [if_neg (by decide : ¬((⟨1, [30000], [], false, some 401⟩ : CPTrace).success = true))]
    exact ⟨rfl, rfl, rfl, by dsimp only; decide, rfl, rfl⟩
  · intro env h
    unfold publishEndpoint at h ⊢
    cases hb : env.blogLookup with
    | none => exact ⟨rfl, rfl⟩
    | some blog =>
      rw [hb] at h
      dsimp only at h ⊢
      by_cases hcred : credsMissing (credsOf env)
      · rw [if_pos hcred] at h ⊢; exact ⟨rfl, rfl⟩
      · rw [if_neg hcred] at h ⊢
        by_cases hauth : (authLoop env.authProbe).success = false
        · rw [if_pos hauth] at h ⊢; exact ⟨rfl, rfl⟩
        · rw [if_neg hauth] at h ⊢
          by_cases htr : (createPostLoop env.createPost).success = true
          · rw [if_pos htr] at h; exact absurd h (by simp)
          · rw [if_neg htr] at h; exact absurd h (by simp)

/-- Witness for C2's amended theorem, at the concrete 401 environment. -/
theorem createPost_auth_failure_amended_witness :
    (publishEndpoint env401).createTrace = some ⟨1, [30000], [], false, some 401⟩ ∧
    (publishEndpoint env401).response.status = 500 ∧
    (publishEndpoint env401).response.error = some "Failed to publish to WordPress" ∧
    (publishEndpoint env401).response.details = some "WordPress HTTP 401 error" ∧
    (publishEndpoint env401).response.needsCredentials = false ∧
    (publishEndpoint env401).update = none :=
  createPost_auth_failure_amended.1 env401 blogA rfl (by decide) (by decide) (by decide)

/-- Claim C3 counterexample: requested category 99 is invalid against the
live list `[{3, General}]`, so the post is created with categories `[3]` and
tags `[]` (after live-tag validation), yet the stored blog update persists
the raw `categoryId = "99"` and the pre-validation `tagIds = [7]` — not the
resolved values that were sent to WordPress. -/
theorem persist_resolved_counterexample :
    (publishEndpoint envPersist).postBody.map WordpressData.categories = some [3] ∧
    (publishEndpoint envPersist).postBody.map WordpressData.tags = some [] ∧
    (publishEndpoint envPersist).update.map UpdateArgs.categoryId = some (some "99") ∧
    (publishEndpoint envPersist).update.map UpdateArgs.tagIds = some [7] := by
  refine ⟨by decide, by decide, by decide, by decide⟩

/-- Claim C3 amended: on a successful publish the stored update carries
`status = "published"`, the WordPress link and post id, the publish time —
and the *raw* request-supplied `categoryId` (stringified), the
*pre-validation* generated `tagIds`, and the raw request `metaDescription`;
the validated category/tag sets are only sent in the create-post payload,
not persisted. -/
theorem persist_raw_values_amended :
    ∀ env blog, env.blogLookup = some blog →
      ¬credsMissing (credsOf env) →
      (authLoop env.authProbe).success = true →
      (createPostLoop env.createPost).success = true →
      (publishEndpoint env).update = some
        { status := "published",
          wordpressUrl := env.postResult.link,
          wordpressPostId := toString env.postResult.id,
          publishedAt := env.now,
          categoryId := env.req.categoryId.map toString,
          tagIds := tagIdsOf env blog,
          metaDescription := env.req.metaDescription } ∧
      (publishEndpoint env).postBody.map WordpressData.categories =
        some (catResolve (requestedCategoryIds env.req) blog.title.data blog.content.data
          env.categoriesLive) ∧
      (publishEndpoint env).postBody.map WordpressData.tags =
        some (validateTags (tagIdsOf env blog) env.tagsLive) := by
  intro env blog hblog hcred hauth hsucc
  unfold publishEndpoint
  rw [hblog]
  dsimp only
  rw [if_neg hcred, if_neg (by rw [hauth]; simp), if_pos hsucc]
  exact ⟨rfl, rfl, rfl⟩

/-- Witness for C3's amended theorem, at the concrete divergence
environment. -/
theorem persist_raw_values_amended_witness :
    (publishEndpoint envPersist).update = some
      { status := "published",
        wordpressUrl := envPersist.postResult.link,
        wordpressPostId := toString envPersist.postResult.id,
        publishedAt := envPersist.now,
        categoryId := envPersist.req.categoryId.map toString,
        tagIds := tagIdsOf envPersist blogA,
        metaDescription := envPersist.req.metaDescription } ∧
    (publishEndpoint envPersist).postBody.map WordpressData.categories =
      some (catResolve (requestedCategoryIds envPersist.req) blogA.title.data
        blogA.content.data envPersist.categoriesLive) ∧
    (publishEndpoint envPersist).postBody.map WordpressData.tags =
      some (validateTags (tagIdsOf envPersist blogA) envPersist.tagsLive) :=
  persist_raw_values_amended envPersist blogA rfl (by decide) (by decide) (by decide)

/-- Claim C4 counterexample: when the request supplies a complete credential
triple and stored settings also exist, the resolved credentials are the
request-supplied ones, not the stored settings. -/
theorem cred_precedence_counterexample :
    resolveCreds ("https://r.example", "ru", "rp")
      (some ⟨"https://s.example", "su", "sp"⟩) = ("https://r.example", "ru", "rp") ∧
    resolveCreds ("https://r.example", "ru", "rp")
      (some ⟨"https://s.example", "su", "sp"⟩) ≠ ("https://s.example", "su", "sp") := by
  refine ⟨by decide, by decide⟩

/-- Claim C4 amended: request-supplied credentials win whenever all three are
present and non-empty; only when at least one is missing are stored settings
consulted, each non-empty stored field overriding the request value; the
hardcoded default is used only when no stored settings record exists (and
some request field is missing). -/
theorem cred_precedence_amended :
    (∀ (req : String × String × String) (stored : Option StoredCreds),
      req.1 ≠ "" → req.2.1 ≠ "" → req.2.2 ≠ "" → resolveCreds req stored = req) ∧
    (∀ (req : String × String × String) (sc : StoredCreds),
      ¬(req.1 ≠ "" ∧ req.2.1 ≠ "" ∧ req.2.2 ≠ "") →
      resolveCreds req (some sc) =
        (jsOrS sc.wordpressUrl req.1, jsOrS sc.username req.2.1,
          jsOrS sc.password req.2.2)) ∧
    (∀ req : String × String × String,
      ¬(req.1 ≠ "" ∧ req.2.1 ≠ "" ∧ req.2.2 ≠ "") →
      resolveCreds req none = defaultCreds) := by
  refine ⟨?_, ?_, ?_⟩
  · intro req stored h1 h2 h3
    unfold resolveCreds
    rw [if_pos ⟨h1, h2, h3⟩]
  · intro req sc hmiss
    unfold resolveCreds
    rw [if_neg hmiss]
  · intro req hmiss
    unfold resolveCreds
    rw [if_neg hmiss]

/-- Witness for C4's amended theorem. -/
theorem cred_precedence_amended_witness :
    resolveCreds ("https://a.example", "u", "p") none = ("https://a.example", "u", "p") :=
  cred_precedence_amended.1 ("https://a.example", "u", "p") none (by decide) (by decide)
    (by decide)

/-- Claim C5: the authentication probe runs at most 3 times with delays
`attempt × 1s` between failed attempts; when all 3 probes fail the publish
returns HTTP 401 with `needsCredentials: true` and performs no tag
generation, no content transformation, no create-post attempt and no blog
update. -/
theorem auth_probe_fail_fast :
    (∀ probe, (authLoop probe).attempts ≤ 3 ∧
      (authLoop probe).delays =
        (List.range' 1 ((authLoop probe).attempts - 1)).map (· * 1000)) ∧
    (∀ env blog, env.blogLookup = some blog →
      ¬credsMissing (credsOf env) →
      (∀ k, 1 ≤ k → k ≤ 3 → env.authProbe k = false) →
      publishEndpoint env =
        ⟨{ status := 401,
           error := some "WordPress authentication failed after multiple attempts",
           details := some "Please verify your WordPress URL, username, and application password",
           needsCredentials := true }, none, none, none, false, none⟩) := by
  constructor
  · intro probe
    unfold authLoop
    obtain ⟨b1, _, b3⟩ := authGo_spec probe 3 1 [] (by omega) (by omega)
    refine ⟨b1, ?_⟩
    rw [b3]
    simp
  · intro env blog hblog hcred hprobe
    unfold publishEndpoint
    rw [hblog]
    dsimp only
    rw [if_neg hcred, authLoop_all_fail env.authProbe hprobe]
    rfl

/-- Witness for C5, at the concrete all-probes-fail environment. -/
theorem auth_probe_fail_fast_witness :
    publishEndpoint envAuthFail =
      ⟨{ status := 401,
         error := some "WordPress authentication failed after multiple attempts",
         details := some "Please verify your WordPress URL, username, and application password",
         needsCredentials := true }, none, none, none, false, none⟩ :=
  auth_probe_fail_fast.2 envAuthFail blogA rfl (by decide) (fun _ _ _ => rfl)

set_option maxRecDepth 40000 in
/-- Claim C6 counterexample: on an input of 300 letters with no sentence
punctuation, the excerpt is the whole 300-character text plus a period —
301 characters, far above the claimed ≈165-character bound. -/
theorem excerpt_length_counterexample :
    165 < (extractExcerptL longWord).length ∧
    extractExcerptL longWord = longWord ++ ['.'] := by
  refine ⟨by decide, by decide⟩

/-- Claim C6 amended: for every markdown input the excerpt is non-empty; it
is the first sentence of the cleaned text that is longer than 20 characters,
does not start with `http(s)://` and does not contain `unsplash`, suffixed
with a period — with no upper length bound; when no sentence qualifies the
result is at most 160 characters (the 160-character word-trimmed prefix, or
the fixed generic sentence). -/
theorem excerpt_amended :
    ∀ md : List Char,
      extractExcerptL md ≠ [] ∧
      (match firstQualifyingL (cleanedText md) with
       | some t => extractExcerptL md = t ++ ['.']
       | none => (extractExcerptL md).length ≤ 160) := by
  intro md
  cases hq : firstQualifyingL (cleanedText md) with
  | some t =>
    have he : extractExcerptL md = t ++ ['.'] := by
      unfold extractExcerptL
      dsimp only
      rw [hq]
      dsimp only
      rw [if_neg (by simp)]
    exact ⟨by rw [he]; simp, he⟩
  | none =>
    have hgen : (genericExcerpt.data).length ≤ 160 := by decide
    have hgne : genericExcerpt.data ≠ [] := by decide
    unfold extractExcerptL
    dsimp only
    rw [hq]
    dsimp only
    by_cases hlen : 20 < (cleanedText md).length
    · rw [if_pos hlen]
      by_cases hfe : dropLastWord ((cleanedText md).take 160) = []
      · rw [if_pos hfe]
        exact ⟨hgne, hgen⟩
      · rw [if_neg hfe]
        refine ⟨hfe, ?_⟩
        calc (dropLastWord ((cleanedText md).take 160)).length
            ≤ ((cleanedText md).take 160).length := dropLastWord_length_le _
          _ ≤ 160 := List.length_take_le _ _
    · rw [if_neg hlen]
      rw [if_pos rfl]
      exact ⟨hgne, hgen⟩

/-- Claim C7 counterexample: on input `x!![b](c)[](u)` the single-pass image
removal glues `x!` onto `[](u)`, and the final HTML `<p>x![](u)</p>` contains
a substring matching `![alt](url)`. -/
theorem html_image_syntax_counterexample :
    countImagesS (mdToHtml "x!![b](c)[](u)") = 1 ∧
    mdToHtml "x!![b](c)[](u)" = "<p>x![](u)</p>" := by
  refine ⟨by decide, by decide⟩

/-- Claim C7 amended: the image-removal pass deletes exactly the markdown
image references present in the input (its output is the input's non-image
characters in order), and the heading-strip pass blanks every line of the
form `# ` followed by at least one character — but the final HTML is not in
general free of image syntax (removal can create new `![alt](url)` substrings
by juxtaposition), and a line consisting of exactly `# ` survives. -/
theorem html_transform_amended :
    (∀ md : List Char, removeImagesL md = litChars (parseSegs md)) ∧
    (∀ md : List Char, ∀ line ∈ splitChar '\n' (stripH1 md), isH1Line line = false) := by
  constructor
  · exact removeImagesL_eq_litChars
  · intro md line hline
    rw [stripH1_lines] at hline
    rcases List.mem_map.mp hline with ⟨l0, hl0, rfl⟩
    cases h1 : isH1Line l0 with
    | true => rw [if_pos rfl]; decide
    | false => rw [if_neg (by simp)]; exact h1

/-- Witness for C7's amended theorem. -/
theorem html_transform_amended_witness :
    removeImagesL "x!![b](c)[](u)".data = litChars (parseSegs "x!![b](c)[](u)".data) ∧
    isH1Line [] = false :=
  ⟨html_transform_amended.1 "x!![b](c)[](u)".data,
   html_transform_amended.2 "# x\nab".data [] (by decide)⟩

/-- Every category the smart fallback picks comes from the live list. -/
theorem smartFallback_mem {title content : List Char} {avail : List Cat} {c : Cat}
    (h : smartFallback title content avail = some c) : c ∈ avail := by
  unfold smartFallback at h
  dsimp only at h
  split at h
  · rename_i cat heq
    injection h with h
    subst h
    split at heq
    · rename_i cat2 heq2
      injection heq with heq
      subst heq
      split at heq2
      · rename_i cat3 heq3
        injection heq2 with heq2
        subst heq2
        split at heq3
        · exact List.mem_of_find?_eq_some heq3
        · simp at heq3
      · split at heq2
        · exact List.mem_of_find?_eq_some heq2
        · simp at heq2
    · split at heq
      · exact List.mem_of_find?_eq_some heq
      · simp at heq
  · cases avail with
    | nil => simp at h
    | cons x t =>
      simp only [List.head?_cons] at h
      injection h with h
      subst h
      exact List.mem_cons_self x t

/-- With a non-empty live list the smart fallback always picks something. -/
theorem smartFallback_ne_none {title content : List Char} {avail : List Cat}
    (hav : avail ≠ []) : smartFallback title content avail ≠ none := by
  unfold smartFallback
  dsimp only
  split
  · simp
  · cases avail with
    | nil => exact absurd rfl hav
    | cons x t => simp

/-- Claim C8: when none of the requested category ids validates against a
non-empty live category list, category resolution still returns a singleton
taken from the live list (heuristic pick, else the first live category); in
particular with zero matches and live list `[{3, General}]` the result is
`[3]`. -/
theorem category_fallback_nonempty :
    (∀ (requested : List ℕ) (title content : List Char) (avail : List Cat),
      validateCategories requested avail = [] → avail ≠ [] →
      ∃ c, c ∈ avail ∧ catResolve requested title content avail = [c.id]) ∧
    catResolve [99] "t".data "c".data [⟨3, "General"⟩] = [3] := by
  constructor
  · intro requested title content avail hval hav
    unfold catResolve
    dsimp only
    rw [if_pos ⟨hval, hav⟩]
    cases hsf : smartFallback title content avail with
    | none => exact absurd hsf (smartFallback_ne_none hav)
    | some cat => exact ⟨cat, smartFallback_mem hsf, rfl⟩
  · decide

/-- Witness for C8. -/
theorem category_fallback_nonempty_witness :
    ∃ c, c ∈ [(⟨3, "General"⟩ : Cat)] ∧
      catResolve [99] "t".data "c".data [⟨3, "General"⟩] = [c.id] :=
  category_fallback_nonempty.1 [99] "t".data "c".data [⟨3, "General"⟩] (by decide)
    (by decide)

/-- Claim C9: replacing the image at index `i` rewrites exactly the `i`-th
`![desc](url)` occurrence in reading order (new url, new description) and
leaves every other segment byte-identical (the segment decomposition is
lossless); when fewer than `i+1` references exist the endpoint fails with a
400 error and the blog is unchanged. -/
theorem replace_image_at_index :
    ∀ (blog : Blog) (idx : ℕ) (img : NewImage), img.url ≠ "" →
      (idx < countImagesS blog.content →
        replaceImageEndpoint blog idx img =
          Except.ok { blog with content := String.mk (renderSegs (updSegs img idx 0 (parseSegs blog.content.data))) } ∧
        renderSegs (parseSegs blog.content.data) = blog.content.data) ∧
      (countImagesS blog.content ≤ idx →
        replaceImageEndpoint blog idx img =
          Except.error ⟨400, "Image index " ++ toString idx
            ++ " not found in content. Total images: "
            ++ toString (countImagesS blog.content)⟩) := by
  intro blog idx img hurl
  have hspec := replaceNth_spec img idx blog.content.data 0
  constructor
  · intro hidx
    constructor
    · unfold replaceImageEndpoint
      rw [if_neg hurl]
      dsimp only
      rw [hspec]
      dsimp only
      rw [if_pos (by
        simp only [decide_eq_true_eq]
        unfold countImagesS countImagesL at hidx
        omega)]
    · exact renderSegs_parseSegs blog.content.data
  · intro hidx
    unfold replaceImageEndpoint
    rw [if_neg hurl]
    dsimp only
    rw [hspec]
    dsimp only
    rw [if_neg (by
      simp only [decide_eq_true_eq]
      unfold countImagesS countImagesL at hidx
      omega)]
    unfold countImagesS countImagesL
    rw [Nat.zero_add]

/-- Witness for C9, on a blog whose content has two image references. -/
theorem replace_image_at_index_witness :
    1 < countImagesS blogTwoImgs.content ∧
    replaceImageEndpoint blogTwoImgs 1 newImgW =
      Except.ok { blogTwoImgs with content := String.mk (renderSegs (updSegs newImgW 1 0 (parseSegs blogTwoImgs.content.data))) } ∧
    String.mk (renderSegs (updSegs newImgW 1 0 (parseSegs blogTwoImgs.content.data))) =
      "A ![x](u1) B ![d3](u3) C" :=
  ⟨by decide,
   ((replace_image_at_index blogTwoImgs 1 newImgW (by decide)).1 (by decide)).1,
   by decide⟩

/-- Claim C10: the create-post payload is always sent with
`featured_media = null`, even when the featured-image upload succeeded and
produced a media id — the uploaded media is never attached to the post. -/
theorem featured_media_always_null :
    (∀ env wd, (publishEndpoint env).postBody = some wd → wd.featured_media = none) ∧
    ((publishEndpoint envMedia).featuredMediaId = some 77 ∧
      (publishEndpoint envMedia).postBody.map WordpressData.featured_media = some none) := by
  constructor
  · intro env wd h
    unfold publishEndpoint at h
    cases hb : env.blogLookup with
    | none =>
      rw [hb] at h
      exact absurd h (by simp)
    | some blog =>
      rw [hb] at h
      dsimp only at h
      by_cases hcred : credsMissing (credsOf env)
      · rw [if_pos hcred] at h; exact absurd h (by simp)
      · rw [if_neg hcred] at h
        by_cases hauth : (authLoop env.authProbe).success = false
        · rw [if_pos hauth] at h; exact absurd h (by simp)
        · rw [if_neg hauth] at h
          by_cases htr : (createPostLoop env.createPost).success = true
          · rw [if_pos htr] at h
            dsimp only at h
            injection h with h
            subst h
            rfl
          · rw [if_neg htr] at h
            dsimp only at h
            injection h with h
            subst h
            rfl
  · exact ⟨by decide, by decide⟩

/-- Witness for C10. -/
theorem featured_media_always_null_witness :
    ((publishEndpoint envMedia).postBody.getD default).featured_media = none :=
  featured_media_always_null.1 envMedia ((publishEndpoint envMedia).postBody.getD default)
    (by decide)

end BlogSys
